import Mathlib

/-!
Verification of the nbbo-backend aggregation/broadcast core.

Shallow embedding of the Python sources:
  * src/routes/aggregate_order_books.py  (order-book reconstruction, aggregation)
  * src/routes/best_prices_ws.py         (broadcast cycle with stale fallback)
  * src/routes/trades_websocket.py       (trade feed client and supervisor loop)
  * src/database/price_db.py             (snapshot store, queries and candles)

Python floats are modelled as rationals (ℚ), Python ints as ℤ, Python dicts
keyed by price / bucket / symbol as insertion-ordered association lists, which
is the iteration order Python guarantees.
-/

namespace NBBO

/-- An order-book level, as in the OrderLevel pydantic model:
price and size are floats, orders a Python int. -/
structure OrderLevel where
  price : ℚ
  size : ℚ
  orders : ℤ
  deriving DecidableEq, Repr

/-- The OrderBook pydantic model of aggregate_order_books.py. -/
structure OrderBook where
  coin : String
  timestamp : ℤ
  bids : List OrderLevel
  asks : List OrderLevel
  best_bid : Option ℚ
  best_ask : Option ℚ
  spread : Option ℚ
  mid_price : Option ℚ
  deriving DecidableEq, Repr

/-- One raw level of the venue payload: keys px, sz, n (after float()/int coercion). -/
structure RawLevel where
  px : ℚ
  sz : ℚ
  n : ℤ
  deriving DecidableEq, Repr

/-- The raw l2Book payload: levels is a list of level arrays
(levels[0] = bids, levels[1] = asks), time an integer timestamp. -/
structure RawOrderBook where
  levels : List (List RawLevel)
  time : ℤ
  deriving DecidableEq, Repr

/-- Python truthiness of an optional float: None and 0.0 are falsy. -/
def qTruthy : Option ℚ → Bool
  | none => false
  | some q => decide (q ≠ 0)

/-- spread = (best_ask - best_bid) if (best_bid and best_ask) else None. -/
def computeSpread (bb ba : Option ℚ) : Option ℚ :=
  if qTruthy bb && qTruthy ba then
    match bb, ba with
    | some b, some a => some (a - b)
    | _, _ => none
  else none

/-- mid_price = (best_bid + best_ask) / 2 if (best_bid and best_ask) else None. -/
def computeMid (bb ba : Option ℚ) : Option ℚ :=
  if qTruthy bb && qTruthy ba then
    match bb, ba with
    | some b, some a => some ((b + a) / 2)
    | _, _ => none
  else none

/-- best_bid = bids[0].price if bids else None. -/
def bestOf (ls : List OrderLevel) : Option ℚ :=
  ls.head?.map OrderLevel.price

/-- Parsed bid levels: levels[0] when present, in venue order. -/
def rawBids (raw : RawOrderBook) : List OrderLevel :=
  match raw.levels with
  | [] => []
  | b :: _ => b.map fun l => ⟨l.px, l.sz, l.n⟩

/-- Parsed ask levels: levels[1] when present, in venue order. -/
def rawAsks (raw : RawOrderBook) : List OrderLevel :=
  match raw.levels with
  | _ :: a :: _ => a.map fun l => ⟨l.px, l.sz, l.n⟩
  | _ => []

/-- _reconstruct_orderbook of aggregate_order_books.py: take levels[0] as bids
and levels[1] as asks in venue order (no re-sort), compute best/spread/mid. -/
def _reconstruct_orderbook (raw : RawOrderBook) (coin : String) : OrderBook :=
  let bids := rawBids raw
  let asks := rawAsks raw
  let bb := bestOf bids
  let ba := bestOf asks
  { coin := coin
    timestamp := raw.time
    bids := bids
    asks := asks
    best_bid := bb
    best_ask := ba
    spread := computeSpread bb ba
    mid_price := computeMid bb ba }

/-- One step of the per-side price-keyed dict accumulation in
_create_aggregated_orderbook: if the price key is already present, add size
and orders in place; otherwise append a fresh entry (dict insertion order). -/
def updateLevel : List OrderLevel → OrderLevel → List OrderLevel
  | [], l => [l]
  | e :: rest, l =>
    if e.price = l.price then
      { e with size := e.size + l.size, orders := e.orders + l.orders } :: rest
    else
      e :: updateLevel rest l

/-- Fold a whole side through the price-keyed aggregation dict. -/
def aggregateSide (ls : List OrderLevel) : List OrderLevel :=
  ls.foldl updateLevel []

/-- Bid ordering used by aggregated_bids.sort(reverse=True): descending price. -/
def bidLe (a b : OrderLevel) : Prop := b.price ≤ a.price

/-- Ask ordering used by aggregated_asks.sort(): ascending price. -/
def askLe (a b : OrderLevel) : Prop := a.price ≤ b.price

instance : DecidableRel bidLe := fun a b => inferInstanceAs (Decidable (b.price ≤ a.price))

instance : DecidableRel askLe := fun a b => inferInstanceAs (Decidable (a.price ≤ b.price))

instance : IsTotal OrderLevel bidLe := ⟨fun a b => le_total b.price a.price⟩

instance : IsTrans OrderLevel bidLe := ⟨fun _ _ _ h1 h2 => le_trans h2 h1⟩

instance : IsTotal OrderLevel askLe := ⟨fun a b => le_total a.price b.price⟩

instance : IsTrans OrderLevel askLe := ⟨fun _ _ _ h1 h2 => le_trans h1 h2⟩

/-- _create_aggregated_orderbook of aggregate_order_books.py: group each side
by exact price, sum sizes and order counts, sort bids descending and asks
ascending, recompute best/spread/mid.  The timestamp is the wall-clock time of
the aggregation, passed here as the parameter now. -/
def _create_aggregated_orderbook (all_bids all_asks : List OrderLevel) (now : ℤ) : OrderBook :=
  let aggregated_bids := List.insertionSort bidLe (aggregateSide all_bids)
  let aggregated_asks := List.insertionSort askLe (aggregateSide all_asks)
  let bb := bestOf aggregated_bids
  let ba := bestOf aggregated_asks
  { coin := "BTC"
    timestamp := now
    bids := aggregated_bids
    asks := aggregated_asks
    best_bid := bb
    best_ask := ba
    spread := computeSpread bb ba
    mid_price := computeMid bb ba }

/-- Total size contributed at an exact price by a list of levels. -/
def sizeAt (p : ℚ) (ls : List OrderLevel) : ℚ :=
  ((ls.filter fun l => l.price = p).map OrderLevel.size).sum

/-- Total order count contributed at an exact price by a list of levels. -/
def ordersAt (p : ℚ) (ls : List OrderLevel) : ℤ :=
  ((ls.filter fun l => l.price = p).map OrderLevel.orders).sum

/-- The OrderBook invariant on best/spread/mid claimed by the spec:
best values are the first level of each side, and spread/mid are present with
their defining values exactly when both best values are present. -/
def metricsOk (ob : OrderBook) : Prop :=
  ob.best_bid = ob.bids.head?.map OrderLevel.price ∧
  ob.best_ask = ob.asks.head?.map OrderLevel.price ∧
  ((∃ b a, ob.best_bid = some b ∧ ob.best_ask = some a ∧
      ob.spread = some (a - b) ∧ ob.mid_price = some ((b + a) / 2)) ∨
   ((ob.best_bid = none ∨ ob.best_ask = none) ∧
      ob.spread = none ∧ ob.mid_price = none))

/-- The metadata dict of a streamed frame in best_prices_ws.py. -/
structure FrameMeta where
  coins_processed : ℕ
  total_coins : ℕ
  deriving DecidableEq, Repr

/-- A frame pushed on the /ws/prices channel: the type tag, the optional
human-readable message of error frames, and the data/metadata payloads. -/
structure Frame where
  type : String
  message : Option String
  data : Option OrderBook
  metadata : Option FrameMeta
  deriving DecidableEq, Repr

/-- One iteration of the while-loop body of stream_aggregated_order_books
(best_prices_ws.py, lines 36-119), with at least one subscriber connected.
Input: the per-venue fetch/reconstruct outcomes for this cycle (none = that
venue failed), the wall clock, and the last-known-good frame.  Output: the
frame sent to every subscriber this cycle (none = nothing sent) and the new
last-known-good frame. -/
def cycleStep (venueResults : List (Option OrderBook)) (now : ℤ)
    (last : Option Frame) : Option Frame × Option Frame :=
  let books := venueResults.filterMap id
  let all_bids := books.foldl (fun acc b => acc ++ b.bids) []
  let all_asks := books.foldl (fun acc b => acc ++ b.asks) []
  if books.length ≠ 0 then
    let ob := _create_aggregated_orderbook all_bids all_asks now
    let msg : Frame :=
      { type := "aggregated_order_book"
        message := none
        data := some ob
        metadata := some ⟨books.length, venueResults.length⟩ }
    (some msg, some msg)
  else
    match last with
    | some m =>
      (some { type := "error"
              message := some "Failed to retrieve order book data, sending last known data"
              data := m.data
              metadata := m.metadata }, some m)
    | none => (none, none)

/-- The mutable state of HyperliquidWebSocketClient: the running flag and
whether a live upstream websocket is held. -/
structure TCState where
  running : Bool
  connected : Bool
  deriving DecidableEq, Repr

/-- One iteration of the while-loop body of manage_websocket_connection
(trades_websocket.py, lines 255-263): start_trade_stream is awaited only when
the running flag is false; connect sets running and, when the eventual listen
loop ends on a connection close, the socket is gone but running is left true.
Returns the new state and whether a connection attempt was made. -/
def superviseStep (s : TCState) (connectOk : Bool) : TCState × Bool :=
  if s.running = false then
    if connectOk then ({ running := true, connected := false }, true)
    else (s, true)
  else (s, false)

/-- Iterate the supervisor over a schedule of connect outcomes, recording
whether any connection attempt happened. -/
def superviseRun (s : TCState) : List Bool → TCState × Bool
  | [] => (s, false)
  | ok :: rest =>
    let (s1, att1) := superviseStep s ok
    let (s2, att2) := superviseRun s1 rest
    (s2, att1 || att2)

/-- A parsed trade (the TradeData pydantic model of trades_websocket.py). -/
structure TradeData where
  coin : String
  price : ℚ
  size : ℚ
  side : String
  timestamp : ℤ
  tid : ℤ
  deriving DecidableEq, Repr

/-- SUPPORTED_COINS of trades_websocket.py. -/
def SUPPORTED_COINS : List String :=
  ["merrli:BTC", "sekaw:BTC", "btcx:BTC-FEUSD"]

/-- The latest-trade state: the per-coin dict latest_trades (as an
insertion-ordered association list) and latest_trade_overall. -/
structure TradeState where
  latest_trades : List (String × TradeData)
  latest_trade_overall : Option TradeData
  deriving DecidableEq, Repr

/-- Python dict assignment latest_trades[coin] = trade: update in place if the
key exists, else append. -/
def setTrade : List (String × TradeData) → String → TradeData → List (String × TradeData)
  | [], c, t => [(c, t)]
  | (k, v) :: rest, c, t =>
    if k = c then (k, t) :: rest else (k, v) :: setTrade rest c t

/-- Dict lookup on the latest_trades association list. -/
def lookupTrade (c : String) : List (String × TradeData) → Option TradeData
  | [] => none
  | (k, v) :: rest => if k = c then some v else lookupTrade c rest

/-- _process_trade of trades_websocket.py on an already-parsed trade: drop
trades for unsupported coins; otherwise store the per-coin latest trade, and
when the trade is strictly newer than the global latest (or none exists yet)
update the global latest and broadcast.  Returns the new state and whether
_broadcast_trade_update was invoked. -/
def _process_trade (s : TradeState) (trade : TradeData) : TradeState × Bool :=
  if trade.coin ∈ SUPPORTED_COINS then
    let m := setTrade s.latest_trades trade.coin trade
    match s.latest_trade_overall with
    | none => ({ latest_trades := m, latest_trade_overall := some trade }, true)
    | some prev =>
      if prev.timestamp < trade.timestamp then
        ({ latest_trades := m, latest_trade_overall := some trade }, true)
      else
        ({ latest_trades := m, latest_trade_overall := some prev }, false)
  else (s, false)

/-- A stored row of the price_snapshots table (id and created_at omitted:
they are never part of the natural key or of the queried payload). -/
structure Snapshot where
  coin : String
  dex : String
  timestamp : ℤ
  best_ask : ℚ
  best_bid : Option ℚ
  spread : Option ℚ
  mid_price : Option ℚ
  deriving DecidableEq, Repr

/-- The data part of the JSON payload handed to insert_snapshot.  The venue
field records which venue the snapshot came from; insert_snapshot never reads
it. -/
structure SnapInput where
  coin : String
  venue : String
  timestamp : ℤ
  best_ask : ℚ
  best_bid : Option ℚ
  spread : Option ℚ
  mid_price : Option ℚ
  deriving DecidableEq, Repr

/-- Whether the sqlite layer succeeds or raises sqlite3.Error during the
insert. -/
inductive SqliteOutcome where
  | ok
  | ioError
  deriving DecidableEq, Repr

/-- The UNIQUE(coin, dex, timestamp) natural key of a stored row. -/
def rowKey (s : Snapshot) : String × String × ℤ := (s.coin, s.dex, s.timestamp)

/-- insert_snapshot of price_db.py: the row is built with the literal string
BTC as the dex column; INSERT OR IGNORE appends the row unless a row with the
same (coin, dex, timestamp) key exists, in which case nothing changes and
False is returned; sqlite3.Error is caught and also turned into False. -/
def insert_snapshot (db : List Snapshot) (i : SnapInput) :
    SqliteOutcome → List Snapshot × Bool
  | .ioError => (db, false)
  | .ok =>
    let row : Snapshot :=
      ⟨i.coin, "BTC", i.timestamp, i.best_ask, i.best_bid, i.spread, i.mid_price⟩
    if db.any fun r => rowKey r = rowKey row then (db, false)
    else (db ++ [row], true)

/-- Ascending-timestamp ordering of stored snapshots (ORDER BY timestamp ASC). -/
def snapLe (a b : Snapshot) : Prop := a.timestamp ≤ b.timestamp

instance : DecidableRel snapLe := fun a b => inferInstanceAs (Decidable (a.timestamp ≤ b.timestamp))

instance : IsTotal Snapshot snapLe := ⟨fun a b => le_total a.timestamp b.timestamp⟩

instance : IsTrans Snapshot snapLe := ⟨fun _ _ _ h1 h2 => le_trans h1 h2⟩

/-- The WHERE clause built by get_snapshots: coin is always constrained; the
optional filters participate only when they are Python-truthy (a None or
empty-string dex, and a None or zero timestamp bound, add no clause). -/
def rowMatches (coin : String) (dex : Option String)
    (start_timestamp end_timestamp : Option ℤ) (s : Snapshot) : Bool :=
  s.coin = coin &&
  (match dex with
   | some d => if d = "" then true else s.dex = d
   | none => true) &&
  (match start_timestamp with
   | some t => if t = 0 then true else t ≤ s.timestamp
   | none => true) &&
  (match end_timestamp with
   | some t => if t = 0 then true else s.timestamp ≤ t
   | none => true)

/-- The LIMIT clause: absent or zero means no limit, and sqlite treats a
negative limit as no limit as well. -/
def applyLimit (limit : Option ℤ) (rows : List Snapshot) : List Snapshot :=
  match limit with
  | none => rows
  | some n => if n = 0 then rows else if n < 0 then rows else rows.take n.toNat

/-- get_snapshots of price_db.py over the stored rows (in rowid order):
filter by the WHERE clause, ORDER BY timestamp ASC, then apply LIMIT. -/
def get_snapshots (rows : List Snapshot) (coin : String) (dex : Option String)
    (start_timestamp end_timestamp : Option ℤ) (limit : Option ℤ) : List Snapshot :=
  applyLimit limit
    (List.insertionSort snapLe
      (rows.filter (rowMatches coin dex start_timestamp end_timestamp)))

/-- A derived OHLC candle (the dicts built by calculate_candles). -/
structure Candle where
  timestamp : ℤ
  open_ : ℚ
  high : ℚ
  low : ℚ
  close : ℚ
  volume : ℚ
  count : ℤ
  deriving DecidableEq, Repr

/-- candle_start = (snapshot timestamp // timeframe_ms) * timeframe_ms, with
Python floor division. -/
def bucketOf (m ts : ℤ) : ℤ := ts.fdiv m * m

/-- The fresh candle dict created when a bucket is first seen. -/
def newCandle (b : ℤ) (ask : ℚ) : Candle :=
  { timestamp := b
    open_ := ask
    high := ask
    low := ask
    close := ask
    volume := 0
    count := 0 }

/-- The unconditional per-snapshot candle update (high/low/close/count). -/
def updateCandle (c : Candle) (ask : ℚ) : Candle :=
  { c with
    high := max c.high ask
    low := min c.low ask
    close := ask
    count := c.count + 1 }

/-- One snapshot folded into the bucket-keyed candles dict: create the bucket
entry if missing (insertion order), then apply the update block. -/
def insertSnap (m : ℤ) : List (ℤ × Candle) → Snapshot → List (ℤ × Candle)
  | [], s =>
    let b := bucketOf m s.timestamp
    [(b, updateCandle (newCandle b s.best_ask) s.best_ask)]
  | (k, c) :: rest, s =>
    if k = bucketOf m s.timestamp then (k, updateCandle c s.best_ask) :: rest
    else (k, c) :: insertSnap m rest s

/-- The candles dict after folding in all snapshots. -/
def buildCandles (m : ℤ) (snaps : List Snapshot) : List (ℤ × Candle) :=
  snaps.foldl (insertSnap m) []

/-- Ascending-bucket ordering used by the final sorted(..., key=timestamp). -/
def candleLe (a b : Candle) : Prop := a.timestamp ≤ b.timestamp

instance : DecidableRel candleLe := fun a b => inferInstanceAs (Decidable (a.timestamp ≤ b.timestamp))

instance : IsTotal Candle candleLe := ⟨fun a b => le_total a.timestamp b.timestamp⟩

instance : IsTrans Candle candleLe := ⟨fun _ _ _ h1 h2 => le_trans h1 h2⟩

/-- The bucketing core of calculate_candles (price_db.py, lines 171-203),
applied to the snapshot list returned by get_snapshots. -/
def bucketCandles (snaps : List Snapshot) (timeframe_minutes : ℤ) : List Candle :=
  if snaps.isEmpty then []
  else
    let timeframe_ms := timeframe_minutes * 60 * 1000
    List.insertionSort candleLe ((buildCandles timeframe_ms snaps).map Prod.snd)

/-- calculate_candles of price_db.py: fetch the coin's snapshots in the time
range (ascending by timestamp), then bucket them. -/
def calculate_candles (rows : List Snapshot) (coin : String)
    (timeframe_minutes : ℤ) (start_timestamp end_timestamp : Option ℤ) : List Candle :=
  bucketCandles (get_snapshots rows coin none start_timestamp end_timestamp none)
    timeframe_minutes

/-- The three snapshots of the spec's candle example: ask prices 10, 12, 11
at offsets 100ms, 3500000ms and 3700000ms past a bucket boundary t0. -/
def exampleRows (t0 : ℤ) : List Snapshot :=
  [⟨"X", "BTC", t0 + 100, 10, none, none, none⟩,
   ⟨"X", "BTC", t0 + 3500000, 12, none, none, none⟩,
   ⟨"X", "BTC", t0 + 3700000, 11, none, none, none⟩]

/-- Dict lookup in the candles dict. -/
def lookupC (b : ℤ) : List (ℤ × Candle) → Option Candle
  | [] => none
  | (k, c) :: rest => if k = b then some c else lookupC b rest

/-- Folding the per-snapshot update over the asks that land in one bucket. -/
def foldCandle (b : ℤ) (o : Option Candle) (asks : List ℚ) : Option Candle :=
  asks.foldl (fun oc a => some (updateCandle (oc.getD (newCandle b a)) a)) o

theorem sizeAt_cons (p : ℚ) (e : OrderLevel) (rest : List OrderLevel) :
    sizeAt p (e :: rest) = (if e.price = p then e.size else 0) + sizeAt p rest := by
  by_cases h : e.price = p <;> simp [sizeAt, List.filter_cons, h]

theorem ordersAt_cons (p : ℚ) (e : OrderLevel) (rest : List OrderLevel) :
    ordersAt p (e :: rest) = (if e.price = p then e.orders else 0) + ordersAt p rest := by
  by_cases h : e.price = p <;> simp [ordersAt, List.filter_cons, h]

theorem sizeAt_updateLevel (acc : List OrderLevel) (l : OrderLevel) (p : ℚ) :
    sizeAt p (updateLevel acc l) = sizeAt p acc + (if l.price = p then l.size else 0) := by
  induction acc with
  | nil =>
    show sizeAt p [l] = sizeAt p [] + _
    rw [sizeAt_cons]
    simp [sizeAt]
  | cons e rest ih =>
    by_cases h : e.price = l.price
    · simp only [updateLevel, if_pos h, sizeAt_cons]
      by_cases hp : e.price = p
      · rw [if_pos hp, if_pos hp, if_pos (h ▸ hp)]; ring
      · rw [if_neg hp, if_neg hp, if_neg (fun hl => hp (h ▸ hl))]; ring
    · simp only [updateLevel, if_neg h, sizeAt_cons, ih]; ring

theorem ordersAt_updateLevel (acc : List OrderLevel) (l : OrderLevel) (p : ℚ) :
    ordersAt p (updateLevel acc l) = ordersAt p acc + (if l.price = p then l.orders else 0) := by
  induction acc with
  | nil =>
    show ordersAt p [l] = ordersAt p [] + _
    rw [ordersAt_cons]
    simp [ordersAt]
  | cons e rest ih =>
    by_cases h : e.price = l.price
    · simp only [updateLevel, if_pos h, ordersAt_cons]
      by_cases hp : e.price = p
      · rw [if_pos hp, if_pos hp, if_pos (h ▸ hp)]; ring
      · rw [if_neg hp, if_neg hp, if_neg (fun hl => hp (h ▸ hl))]; ring
    · simp only [updateLevel, if_neg h, ordersAt_cons, ih]; ring

theorem sizeAt_foldl (ls acc : List OrderLevel) (p : ℚ) :
    sizeAt p (ls.foldl updateLevel acc) = sizeAt p acc + sizeAt p ls := by
  induction ls generalizing acc with
  | nil => simp [sizeAt]
  | cons l rest ih =>
    rw [List.foldl_cons, ih, sizeAt_updateLevel, sizeAt_cons]; ring

theorem ordersAt_foldl (ls acc : List OrderLevel) (p : ℚ) :
    ordersAt p (ls.foldl updateLevel acc) = ordersAt p acc + ordersAt p ls := by
  induction ls generalizing acc with
  | nil => simp [ordersAt]
  | cons l rest ih =>
    rw [List.foldl_cons, ih, ordersAt_updateLevel, ordersAt_cons]; ring

theorem sizeAt_aggregateSide (ls : List OrderLevel) (p : ℚ) :
    sizeAt p (aggregateSide ls) = sizeAt p ls := by
  have := sizeAt_foldl ls [] p
  simpa [aggregateSide, sizeAt] using this

theorem ordersAt_aggregateSide (ls : List OrderLevel) (p : ℚ) :
    ordersAt p (aggregateSide ls) = ordersAt p ls := by
  have := ordersAt_foldl ls [] p
  simpa [aggregateSide, ordersAt] using this

theorem sizeAt_of_perm {l1 l2 : List OrderLevel} (h : l1.Perm l2) (p : ℚ) :
    sizeAt p l1 = sizeAt p l2 :=
  ((h.filter _).map OrderLevel.size).sum_eq

theorem ordersAt_of_perm {l1 l2 : List OrderLevel} (h : l1.Perm l2) (p : ℚ) :
    ordersAt p l1 = ordersAt p l2 :=
  ((h.filter _).map OrderLevel.orders).sum_eq

/-- C1: for every pair of input level lists and every price p, the size at
price p in the aggregated book equals the exact sum of the sizes of all input
levels with price exactly p on that side, and likewise for order counts. -/
theorem aggregate_conservation (all_bids all_asks : List OrderLevel) (now : ℤ) (p : ℚ) :
    sizeAt p (_create_aggregated_orderbook all_bids all_asks now).bids = sizeAt p all_bids ∧
    ordersAt p (_create_aggregated_orderbook all_bids all_asks now).bids = ordersAt p all_bids ∧
    sizeAt p (_create_aggregated_orderbook all_bids all_asks now).asks = sizeAt p all_asks ∧
    ordersAt p (_create_aggregated_orderbook all_bids all_asks now).asks = ordersAt p all_asks := by
  refine ⟨?_, ?_, ?_, ?_⟩
  · rw [show (_create_aggregated_orderbook all_bids all_asks now).bids
        = List.insertionSort bidLe (aggregateSide all_bids) from rfl,
      sizeAt_of_perm (List.perm_insertionSort _ _), sizeAt_aggregateSide]
  · rw [show (_create_aggregated_orderbook all_bids all_asks now).bids
        = List.insertionSort bidLe (aggregateSide all_bids) from rfl,
      ordersAt_of_perm (List.perm_insertionSort _ _), ordersAt_aggregateSide]
  · rw [show (_create_aggregated_orderbook all_bids all_asks now).asks
        = List.insertionSort askLe (aggregateSide all_asks) from rfl,
      sizeAt_of_perm (List.perm_insertionSort _ _), sizeAt_aggregateSide]
  · rw [show (_create_aggregated_orderbook all_bids all_asks now).asks
        = List.insertionSort askLe (aggregateSide all_asks) from rfl,
      ordersAt_of_perm (List.perm_insertionSort _ _), ordersAt_aggregateSide]

theorem price_updateLevel_mem (acc : List OrderLevel) (l : OrderLevel) (q : ℚ) :
    q ∈ (updateLevel acc l).map OrderLevel.price ↔
      q ∈ acc.map OrderLevel.price ∨ q = l.price := by
  induction acc with
  | nil => simp [updateLevel]
  | cons e rest ih =>
    by_cases h : e.price = l.price
    · simp only [updateLevel, if_pos h, List.map_cons, List.mem_cons, ih]
      constructor
      · rintro (hq | hq)
        · exact Or.inl (Or.inl hq)
        · exact Or.inl (Or.inr hq)
      · rintro ((hq | hq) | hq)
        · exact Or.inl hq
        · exact Or.inr hq
        · exact Or.inl (hq.trans h.symm)
    · simp only [updateLevel, if_neg h, List.map_cons, List.mem_cons, ih]
      tauto

theorem nodup_price_updateLevel (acc : List OrderLevel) (l : OrderLevel)
    (h : (acc.map OrderLevel.price).Nodup) :
    ((updateLevel acc l).map OrderLevel.price).Nodup := by
  induction acc with
  | nil => simp [updateLevel]
  | cons e rest ih =>
    rw [List.map_cons, List.nodup_cons] at h
    by_cases he : e.price = l.price
    · simpa only [updateLevel, if_pos he, List.map_cons, List.nodup_cons]
        using ⟨h.1, h.2⟩
    · rw [updateLevel, if_neg he, List.map_cons, List.nodup_cons]
      refine ⟨?_, ih h.2⟩
      rw [price_updateLevel_mem]
      rintro (hm | hm)
      · exact h.1 hm
      · exact he hm

theorem nodup_price_aggregateSide (ls : List OrderLevel) :
    ((aggregateSide ls).map OrderLevel.price).Nodup := by
  have key : ∀ acc : List OrderLevel, (acc.map OrderLevel.price).Nodup →
      ((ls.foldl updateLevel acc).map OrderLevel.price).Nodup := by
    induction ls with
    | nil => intro acc h; simpa using h
    | cons l rest ih =>
      intro acc h
      exact ih _ (nodup_price_updateLevel acc l h)
  exact key [] (by simp)

/-- C2: the aggregated book has bid levels strictly descending and ask levels
strictly ascending by price, and no two distinct levels on a side share a
price. -/
theorem aggregate_strictly_sorted (all_bids all_asks : List OrderLevel) (now : ℤ) :
    List.Pairwise (fun a b => b.price < a.price)
      (_create_aggregated_orderbook all_bids all_asks now).bids ∧
    List.Pairwise (fun a b => a.price < b.price)
      (_create_aggregated_orderbook all_bids all_asks now).asks ∧
    ((_create_aggregated_orderbook all_bids all_asks now).bids.map OrderLevel.price).Nodup ∧
    ((_create_aggregated_orderbook all_bids all_asks now).asks.map OrderLevel.price).Nodup := by
  have hbids : (_create_aggregated_orderbook all_bids all_asks now).bids
      = List.insertionSort bidLe (aggregateSide all_bids) := rfl
  have hasks : (_create_aggregated_orderbook all_bids all_asks now).asks
      = List.insertionSort askLe (aggregateSide all_asks) := rfl
  have hsb : List.Pairwise bidLe (List.insertionSort bidLe (aggregateSide all_bids)) :=
    List.sorted_insertionSort bidLe (aggregateSide all_bids)
  have hsa : List.Pairwise askLe (List.insertionSort askLe (aggregateSide all_asks)) :=
    List.sorted_insertionSort askLe (aggregateSide all_asks)
  have hnb : ((List.insertionSort bidLe (aggregateSide all_bids)).map OrderLevel.price).Nodup :=
    (((List.perm_insertionSort bidLe (aggregateSide all_bids)).map
      OrderLevel.price).nodup_iff).2 (nodup_price_aggregateSide all_bids)
  have hna : ((List.insertionSort askLe (aggregateSide all_asks)).map OrderLevel.price).Nodup :=
    (((List.perm_insertionSort askLe (aggregateSide all_asks)).map
      OrderLevel.price).nodup_iff).2 (nodup_price_aggregateSide all_asks)
  have hpb : List.Pairwise (fun a b : OrderLevel => a.price ≠ b.price)
      (List.insertionSort bidLe (aggregateSide all_bids)) := by
    rw [List.Nodup, List.pairwise_map] at hnb; exact hnb
  have hpa : List.Pairwise (fun a b : OrderLevel => a.price ≠ b.price)
      (List.insertionSort askLe (aggregateSide all_asks)) := by
    rw [List.Nodup, List.pairwise_map] at hna; exact hna
  refine ⟨?_, ?_, ?_, ?_⟩
  · rw [hbids]
    exact (hsb.and hpb).imp fun h => lt_of_le_of_ne h.1 (Ne.symm h.2)
  · rw [hasks]
    exact (hsa.and hpa).imp fun h => lt_of_le_of_ne h.1 h.2
  · rw [hbids]; exact hnb
  · rw [hasks]; exact hna

theorem spread_mid_of_pos (bids asks : List OrderLevel)
    (hb : ∀ l ∈ bids, 0 < l.price) (ha : ∀ l ∈ asks, 0 < l.price) :
    (∃ b a, bestOf bids = some b ∧ bestOf asks = some a ∧
        computeSpread (bestOf bids) (bestOf asks) = some (a - b) ∧
        computeMid (bestOf bids) (bestOf asks) = some ((b + a) / 2)) ∨
    ((bestOf bids = none ∨ bestOf asks = none) ∧
        computeSpread (bestOf bids) (bestOf asks) = none ∧
        computeMid (bestOf bids) (bestOf asks) = none) := by
  match bids, asks with
  | [], _ =>
    right
    refine ⟨Or.inl rfl, ?_, ?_⟩ <;> simp [bestOf, computeSpread, computeMid, qTruthy]
  | _ :: _, [] =>
    right
    refine ⟨Or.inr rfl, ?_, ?_⟩ <;> simp [bestOf, computeSpread, computeMid, qTruthy]
  | b :: brest, a :: arest =>
    left
    have hbp : (0:ℚ) < b.price := hb b (List.mem_cons_self _ _)
    have hap : (0:ℚ) < a.price := ha a (List.mem_cons_self _ _)
    refine ⟨b.price, a.price, rfl, rfl, ?_, ?_⟩ <;>
      simp [bestOf, computeSpread, computeMid, qTruthy, hbp.ne', hap.ne']

theorem price_foldl_mem (ls : List OrderLevel) (acc : List OrderLevel) (q : ℚ)
    (h : q ∈ (ls.foldl updateLevel acc).map OrderLevel.price) :
    q ∈ acc.map OrderLevel.price ∨ q ∈ ls.map OrderLevel.price := by
  induction ls generalizing acc with
  | nil => exact Or.inl (by simpa using h)
  | cons l rest ih =>
    rw [List.foldl_cons] at h
    rcases ih _ h with h1 | h1
    · rw [price_updateLevel_mem] at h1
      rcases h1 with h2 | h2
      · exact Or.inl h2
      · exact Or.inr (by simp [h2])
    · exact Or.inr (List.mem_cons_of_mem _ h1)

theorem price_aggregateSide_mem (ls : List OrderLevel) (q : ℚ)
    (h : q ∈ (aggregateSide ls).map OrderLevel.price) :
    q ∈ ls.map OrderLevel.price := by
  rcases price_foldl_mem ls [] q (by simpa [aggregateSide] using h) with h1 | h1
  · simp at h1
  · exact h1

/-- C9: in every reconstructed or aggregated book with positive level prices,
the best bid/ask are the first level of each side (absent when the side is
empty), and spread and mid price are present exactly when both best values
are, with spread = ask - bid (reported even when negative) and
mid = (bid + ask) / 2. -/
theorem orderbook_metrics_invariant :
    (∀ (raw : RawOrderBook) (coin : String),
        (∀ la ∈ raw.levels, ∀ l ∈ la, 0 < l.px) →
        metricsOk (_reconstruct_orderbook raw coin)) ∧
    (∀ (all_bids all_asks : List OrderLevel) (now : ℤ),
        (∀ l ∈ all_bids, 0 < l.price) → (∀ l ∈ all_asks, 0 < l.price) →
        metricsOk (_create_aggregated_orderbook all_bids all_asks now)) := by
  constructor
  · intro raw coin hpos
    have hb : ∀ l ∈ rawBids raw, 0 < l.price := by
      intro l hl
      rcases raw with ⟨levels, time⟩
      cases levels with
      | nil => simp [rawBids] at hl
      | cons b rest =>
        simp only [rawBids, List.mem_map] at hl
        obtain ⟨rl, hrl, rfl⟩ := hl
        exact hpos b (List.mem_cons_self _ _) rl hrl
    have ha : ∀ l ∈ rawAsks raw, 0 < l.price := by
      intro l hl
      rcases raw with ⟨levels, time⟩
      match levels with
      | [] => simp [rawAsks] at hl
      | [b] => simp [rawAsks] at hl
      | b :: a :: rest =>
        simp only [rawAsks, List.mem_map] at hl
        obtain ⟨rl, hrl, rfl⟩ := hl
        exact hpos a (List.mem_cons_of_mem _ (List.mem_cons_self _ _)) rl hrl
    exact ⟨rfl, rfl, spread_mid_of_pos (rawBids raw) (rawAsks raw) hb ha⟩
  · intro all_bids all_asks now hb ha
    have hb2 : ∀ l ∈ List.insertionSort bidLe (aggregateSide all_bids), 0 < l.price := by
      intro l hl
      rw [List.mem_insertionSort] at hl
      have hm : l.price ∈ all_bids.map OrderLevel.price :=
        price_aggregateSide_mem _ _ (List.mem_map_of_mem _ hl)
      rw [List.mem_map] at hm
      obtain ⟨l2, hl2, hp⟩ := hm
      exact hp ▸ hb l2 hl2
    have ha2 : ∀ l ∈ List.insertionSort askLe (aggregateSide all_asks), 0 < l.price := by
      intro l hl
      rw [List.mem_insertionSort] at hl
      have hm : l.price ∈ all_asks.map OrderLevel.price :=
        price_aggregateSide_mem _ _ (List.mem_map_of_mem _ hl)
      rw [List.mem_map] at hm
      obtain ⟨l2, hl2, hp⟩ := hm
      exact hp ▸ ha l2 hl2
    exact ⟨rfl, rfl, spread_mid_of_pos _ _ hb2 ha2⟩

/-- Witness for C9 at a concrete payload and concrete level lists. -/
theorem orderbook_metrics_invariant_witness :
    metricsOk (_reconstruct_orderbook ⟨[[⟨100, 1, 1⟩], [⟨101, 2, 1⟩]], 5⟩ "merrli:BTC") ∧
    metricsOk (_create_aggregated_orderbook [⟨100, 1, 1⟩, ⟨100, (1:ℚ)/2, 1⟩]
      [⟨101, 2, 1⟩, ⟨102, 1, 1⟩] 7) :=
  ⟨orderbook_metrics_invariant.1 ⟨[[⟨100, 1, 1⟩], [⟨101, 2, 1⟩]], 5⟩ "merrli:BTC" (by decide),
   orderbook_metrics_invariant.2 [⟨100, 1, 1⟩, ⟨100, (1:ℚ)/2, 1⟩]
     [⟨101, 2, 1⟩, ⟨102, 1, 1⟩] 7 (by decide) (by decide)⟩

/-- C3: in a cycle where every venue failed, a last-known-good frame is
re-sent with type error and its data and metadata unchanged; with no
last-known-good, nothing is sent. -/
theorem broadcast_total_failure_fallback (venueResults : List (Option OrderBook))
    (now : ℤ) (last : Option Frame)
    (hfail : ∀ r ∈ venueResults, r = none) :
    (∀ m, last = some m →
        cycleStep venueResults now last =
          (some { type := "error"
                  message := some "Failed to retrieve order book data, sending last known data"
                  data := m.data
                  metadata := m.metadata }, some m)) ∧
    (last = none → cycleStep venueResults now last = (none, none)) := by
  have hbooks : venueResults.filterMap id = [] := by
    rw [List.filterMap_eq_nil_iff]
    intro a ha
    exact hfail a ha
  constructor
  · rintro m rfl
    simp [cycleStep, hbooks]
  · rintro rfl
    simp [cycleStep, hbooks]

/-- Witness for C3: two failed venues, one concrete last-known-good frame. -/
theorem broadcast_total_failure_fallback_witness :
    cycleStep [none, none] 0
        (some { type := "aggregated_order_book"
                message := none
                data := some (_create_aggregated_orderbook [] [] 0)
                metadata := some ⟨2, 2⟩ }) =
      (some { type := "error"
              message := some "Failed to retrieve order book data, sending last known data"
              data := some (_create_aggregated_orderbook [] [] 0)
              metadata := some ⟨2, 2⟩ },
       some { type := "aggregated_order_book"
              message := none
              data := some (_create_aggregated_orderbook [] [] 0)
              metadata := some ⟨2, 2⟩ }) :=
  (broadcast_total_failure_fallback [none, none] 0 _
      (by intro r hr; simpa using hr)).1 _ rfl

/-- C4 fails on the code: manage_websocket_connection only starts a stream
when the running flag is false, and nothing resets the flag when the upstream
connection closes, so a client that connected once and lost its connection is
never reconnected: from the post-loss state (running, no socket) every future
supervisor iteration makes no connection attempt and leaves the state fixed. -/
theorem supervisor_never_reconnects_after_loss :
    superviseStep ⟨false, false⟩ true = (⟨true, false⟩, true) ∧
    ∀ schedule : List Bool,
      superviseRun ⟨true, false⟩ schedule = (⟨true, false⟩, false) := by
  refine ⟨rfl, ?_⟩
  intro schedule
  induction schedule with
  | nil => rfl
  | cons ok rest ih => simp [superviseRun, superviseStep, ih]

theorem lookupTrade_setTrade_self (m : List (String × TradeData)) (c : String)
    (t : TradeData) : lookupTrade c (setTrade m c t) = some t := by
  induction m with
  | nil => simp [setTrade, lookupTrade]
  | cons kv rest ih =>
    obtain ⟨k, v⟩ := kv
    by_cases h : k = c <;> simp [setTrade, lookupTrade, h, ih]

theorem lookupTrade_setTrade_other (m : List (String × TradeData)) (c c' : String)
    (t : TradeData) (h : c' ≠ c) :
    lookupTrade c' (setTrade m c t) = lookupTrade c' m := by
  induction m with
  | nil => simp [setTrade, lookupTrade, Ne.symm h]
  | cons kv rest ih =>
    obtain ⟨k, v⟩ := kv
    by_cases hk : k = c
    · subst hk
      simp [setTrade, lookupTrade, Ne.symm h]
    · simp [setTrade, lookupTrade, hk, ih]

/-- C5: an unsupported-coin trade changes nothing and triggers no push;
otherwise the per-coin latest entry becomes this trade (others untouched), a
push happens iff the trade is strictly newer than the global latest or no
global latest exists, and exactly then the global latest becomes this trade. -/
theorem process_trade_spec (s : TradeState) (t : TradeData) :
    (t.coin ∉ SUPPORTED_COINS → _process_trade s t = (s, false)) ∧
    (t.coin ∈ SUPPORTED_COINS →
      lookupTrade t.coin (_process_trade s t).1.latest_trades = some t ∧
      (∀ c, c ≠ t.coin →
        lookupTrade c (_process_trade s t).1.latest_trades
          = lookupTrade c s.latest_trades) ∧
      ((_process_trade s t).2 = true ↔
        s.latest_trade_overall = none ∨
        ∃ prev, s.latest_trade_overall = some prev ∧ prev.timestamp < t.timestamp) ∧
      ((_process_trade s t).2 = true →
        (_process_trade s t).1.latest_trade_overall = some t) ∧
      ((_process_trade s t).2 = false →
        (_process_trade s t).1.latest_trade_overall = s.latest_trade_overall)) := by
  constructor
  · intro hns
    simp [_process_trade, hns]
  · intro hs
    match ho : s.latest_trade_overall with
    | none =>
      have hres : _process_trade s t =
          ({ latest_trades := setTrade s.latest_trades t.coin t
             latest_trade_overall := some t }, true) := by
        simp [_process_trade, hs, ho]
      rw [hres]
      refine ⟨lookupTrade_setTrade_self _ _ _, ?_, ?_, ?_, ?_⟩
      · intro c hc
        exact lookupTrade_setTrade_other _ _ _ _ hc
      · simp [ho]
      · intro _h; rfl
      · intro h; exact absurd h (by simp)
    | some prev =>
      by_cases ht : prev.timestamp < t.timestamp
      · have hres : _process_trade s t =
            ({ latest_trades := setTrade s.latest_trades t.coin t
               latest_trade_overall := some t }, true) := by
          simp [_process_trade, hs, ho, ht]
        rw [hres]
        refine ⟨lookupTrade_setTrade_self _ _ _, ?_, ?_, ?_, ?_⟩
        · intro c hc
          exact lookupTrade_setTrade_other _ _ _ _ hc
        · constructor
          · intro _h
            exact Or.inr ⟨prev, rfl, ht⟩
          · intro _h; rfl
        · intro _h; rfl
        · intro h; exact absurd h (by simp)
      · have hres : _process_trade s t =
            ({ latest_trades := setTrade s.latest_trades t.coin t
               latest_trade_overall := some prev }, false) := by
          simp [_process_trade, hs, ho, ht]
        rw [hres]
        refine ⟨lookupTrade_setTrade_self _ _ _, ?_, ?_, ?_, ?_⟩
        · intro c hc
          exact lookupTrade_setTrade_other _ _ _ _ hc
        · constructor
          · intro h; exact absurd h (by simp)
          · rintro (h | ⟨prev2, hp2, hlt⟩)
            · exact Option.noConfusion h
            · injection hp2 with he
              subst he
              exact absurd hlt ht
        · intro h; exact absurd h (by simp)
        · intro _h; rfl

/-- Witness for C5: a supported-coin trade against the empty state is stored
and, since no global latest exists, pushed. -/
theorem process_trade_spec_witness :
    lookupTrade "merrli:BTC"
        (_process_trade ⟨[], none⟩ ⟨"merrli:BTC", 100, 1, "B", 5, 1⟩).1.latest_trades
      = some ⟨"merrli:BTC", 100, 1, "B", 5, 1⟩ ∧
    (_process_trade ⟨[], none⟩ ⟨"merrli:BTC", 100, 1, "B", 5, 1⟩).2 = true :=
  ⟨((process_trade_spec ⟨[], none⟩ ⟨"merrli:BTC", 100, 1, "B", 5, 1⟩).2 (by decide)).1,
   ((process_trade_spec ⟨[], none⟩ ⟨"merrli:BTC", 100, 1, "B", 5, 1⟩).2
      (by decide)).2.2.1.2 (Or.inl rfl)⟩

/-- C7 counterexample: a hard sqlite error during insert is caught and
produces exactly the same result as a duplicate insert (db unchanged, False)
instead of surfacing a StorageError: the two outcomes are indistinguishable. -/
theorem insert_io_error_conflated_with_duplicate :
    insert_snapshot [⟨"BTC", "BTC", 5, 10, none, none, none⟩]
        ⟨"BTC", "merrli", 5, 10, none, none, none⟩ SqliteOutcome.ioError
      = insert_snapshot [⟨"BTC", "BTC", 5, 10, none, none, none⟩]
        ⟨"BTC", "merrli", 5, 10, none, none, none⟩ SqliteOutcome.ok ∧
    (insert_snapshot [⟨"BTC", "BTC", 5, 10, none, none, none⟩]
        ⟨"BTC", "merrli", 5, 10, none, none, none⟩ SqliteOutcome.ioError).2 = false := by
  constructor <;> rfl

/-- C7 amended: the insert is idempotent on the stored (coin, dex, timestamp)
key (first call inserted, second duplicate, one matching row), but a hard
I/O failure is caught and reported as the same False as a duplicate, not as a
raised StorageError. -/
theorem insert_snapshot_idempotent (db : List Snapshot) (i : SnapInput)
    (hfresh : ∀ r ∈ db, rowKey r ≠ (i.coin, "BTC", i.timestamp)) :
    insert_snapshot db i .ok =
      (db ++ [⟨i.coin, "BTC", i.timestamp, i.best_ask, i.best_bid, i.spread, i.mid_price⟩],
       true) ∧
    insert_snapshot
        (db ++ [⟨i.coin, "BTC", i.timestamp, i.best_ask, i.best_bid, i.spread, i.mid_price⟩])
        i .ok =
      (db ++ [⟨i.coin, "BTC", i.timestamp, i.best_ask, i.best_bid, i.spread, i.mid_price⟩],
       false) ∧
    ((db ++ [(⟨i.coin, "BTC", i.timestamp, i.best_ask, i.best_bid, i.spread,
        i.mid_price⟩ : Snapshot)]).filter
        fun r => rowKey r = (i.coin, "BTC", i.timestamp)).length = 1 ∧
    (∀ db2 : List Snapshot, insert_snapshot db2 i .ioError = (db2, false)) := by
  have hany : (db.any fun r =>
      rowKey r = (i.coin, "BTC", i.timestamp)) = false := by
    rw [List.any_eq_false]
    intro r hr
    simpa using hfresh r hr
  have hfilter : (db.filter fun r => rowKey r = (i.coin, "BTC", i.timestamp)) = [] := by
    rw [List.filter_eq_nil_iff]
    intro r hr
    simpa using hfresh r hr
  refine ⟨?_, ?_, ?_, fun db2 => rfl⟩
  · simp only [insert_snapshot]
    split
    · rename_i h
      rw [List.any_eq_true] at h
      obtain ⟨r, hr, hk⟩ := h
      exact absurd (of_decide_eq_true hk) (hfresh r hr)
    · rfl
  · simp only [insert_snapshot]
    split
    · rfl
    · rename_i h
      exfalso
      apply h
      rw [List.any_eq_true]
      refine ⟨⟨i.coin, "BTC", i.timestamp, i.best_ask, i.best_bid, i.spread, i.mid_price⟩,
        List.mem_append_right _ (List.mem_cons_self _ _), ?_⟩
      simp [rowKey]
  · rw [List.filter_append, hfilter]
    simp [rowKey]

/-- Witness for C7 amended at an empty table and a concrete snapshot. -/
theorem insert_snapshot_idempotent_witness :
    insert_snapshot [] ⟨"BTC", "merrli", 5, 10, none, none, none⟩ .ok =
      ([⟨"BTC", "BTC", 5, 10, none, none, none⟩], true) ∧
    insert_snapshot [⟨"BTC", "BTC", 5, 10, none, none, none⟩]
        ⟨"BTC", "merrli", 5, 10, none, none, none⟩ .ok =
      ([⟨"BTC", "BTC", 5, 10, none, none, none⟩], false) :=
  ⟨(insert_snapshot_idempotent [] ⟨"BTC", "merrli", 5, 10, none, none, none⟩
      (by simp)).1,
   (insert_snapshot_idempotent [] ⟨"BTC", "merrli", 5, 10, none, none, none⟩
      (by simp)).2.1⟩

/-- C10: insert stores the literal venue BTC regardless of the input venue,
so two snapshots with equal symbol and timestamp from different venues
collide: the first is stored with dex = BTC, the second reports duplicate and
is not stored. -/
theorem insert_venue_hardcoded (db : List Snapshot) (i1 i2 : SnapInput)
    (hcoin : i2.coin = i1.coin) (hts : i2.timestamp = i1.timestamp)
    (hfresh : ∀ r ∈ db, rowKey r ≠ (i1.coin, "BTC", i1.timestamp)) :
    ∃ row : Snapshot,
      insert_snapshot db i1 .ok = (db ++ [row], true) ∧
      row.dex = "BTC" ∧ row.coin = i1.coin ∧ row.timestamp = i1.timestamp ∧
      insert_snapshot (db ++ [row]) i2 .ok = (db ++ [row], false) := by
  refine ⟨⟨i1.coin, "BTC", i1.timestamp, i1.best_ask, i1.best_bid, i1.spread, i1.mid_price⟩,
    ?_, rfl, rfl, rfl, ?_⟩
  · simp only [insert_snapshot]
    split
    · rename_i h
      rw [List.any_eq_true] at h
      obtain ⟨r, hr, hk⟩ := h
      exact absurd (of_decide_eq_true hk) (hfresh r hr)
    · rfl
  · simp only [insert_snapshot]
    split
    · rfl
    · rename_i h
      exfalso
      apply h
      rw [List.any_eq_true]
      refine ⟨⟨i1.coin, "BTC", i1.timestamp, i1.best_ask, i1.best_bid, i1.spread,
        i1.mid_price⟩, List.mem_append_right _ (List.mem_cons_self _ _), ?_⟩
      simp [rowKey, hcoin, hts]

/-- Witness for C10: same coin and timestamp, venues merrli and sekaw. -/
theorem insert_venue_hardcoded_witness :
    ∃ row : Snapshot,
      insert_snapshot [] ⟨"BTC", "merrli", 5, 10, none, none, none⟩ .ok
        = ([] ++ [row], true) ∧
      row.dex = "BTC" ∧ row.coin = "BTC" ∧ row.timestamp = 5 ∧
      insert_snapshot ([] ++ [row]) ⟨"BTC", "sekaw", 5, 11, none, none, none⟩ .ok
        = ([] ++ [row], false) :=
  insert_venue_hardcoded [] ⟨"BTC", "merrli", 5, 10, none, none, none⟩
    ⟨"BTC", "sekaw", 5, 11, none, none, none⟩ rfl rfl (by simp)

/-- C8 counterexample: a provided venue filter with the empty string is
dropped by Python truthiness, so a row whose venue differs from the provided
filter is still returned. -/
theorem get_snapshots_empty_venue_filter_ignored :
    get_snapshots [⟨"BTC", "merrli", 5, 10, none, none, none⟩] "BTC"
        (some "") none none none
      = [⟨"BTC", "merrli", 5, 10, none, none, none⟩] ∧
    ("merrli" : String) ≠ "" := by
  constructor
  · rfl
  · decide

theorem rowMatches_iff (coin : String) (dex : Option String)
    (st en : Option ℤ) (s : Snapshot) :
    rowMatches coin dex st en s = true ↔
      s.coin = coin ∧
      (∀ d, dex = some d → d ≠ "" → s.dex = d) ∧
      (∀ t, st = some t → t ≠ 0 → t ≤ s.timestamp) ∧
      (∀ t, en = some t → t ≠ 0 → s.timestamp ≤ t) := by
  cases dex <;> cases st <;> cases en <;> simp [rowMatches] <;> tauto

/-- C8 corrected: coin is a required filter; the optional venue, start, end
and limit filters compose, except that a falsy provided value (empty venue,
zero bound, zero or negative limit) is dropped; the result is exactly the
rows passing every effective filter, ascending by timestamp, truncated to
the first n rows when a positive limit n is given. -/
theorem get_snapshots_spec (rows : List Snapshot) (coin : String)
    (dex : Option String) (st en : Option ℤ) :
    List.Pairwise snapLe (get_snapshots rows coin dex st en none) ∧
    (∀ s, s ∈ get_snapshots rows coin dex st en none ↔
        s ∈ rows ∧ s.coin = coin ∧
        (∀ d, dex = some d → d ≠ "" → s.dex = d) ∧
        (∀ t, st = some t → t ≠ 0 → t ≤ s.timestamp) ∧
        (∀ t, en = some t → t ≠ 0 → s.timestamp ≤ t)) ∧
    (∀ n : ℤ, 0 < n →
        get_snapshots rows coin dex st en (some n) =
          (get_snapshots rows coin dex st en none).take n.toNat) := by
  refine ⟨?_, ?_, ?_⟩
  · exact List.sorted_insertionSort snapLe _
  · intro s
    rw [show get_snapshots rows coin dex st en none
        = List.insertionSort snapLe (rows.filter (rowMatches coin dex st en)) from rfl,
      List.mem_insertionSort, List.mem_filter, rowMatches_iff]
  · intro n hn
    have h0 : ¬ n = 0 := by omega
    have hneg : ¬ n < 0 := by omega
    simp [get_snapshots, applyLimit, h0, hneg]

/-- Witness for C8 at one stored row and limit 1. -/
theorem get_snapshots_spec_witness :
    get_snapshots [⟨"BTC", "BTC", 5, 10, none, none, none⟩] "BTC" none none none (some 1)
      = (get_snapshots [⟨"BTC", "BTC", 5, 10, none, none, none⟩] "BTC"
          none none none none).take (1 : ℤ).toNat :=
  (get_snapshots_spec [⟨"BTC", "BTC", 5, 10, none, none, none⟩] "BTC"
    none none none).2.2 1 (by decide)

theorem getLast?_cons_getLastD {α : Type} (a : α) (l : List α) :
    (a :: l).getLast? = some (l.getLastD a) := by
  induction l generalizing a with
  | nil => rfl
  | cons b t ih => rw [List.getLast?_cons_cons, ih, List.getLastD_cons]

theorem lookupC_insertSnap (m : ℤ) (acc : List (ℤ × Candle)) (s : Snapshot) (b : ℤ) :
    lookupC b (insertSnap m acc s) =
      if bucketOf m s.timestamp = b then
        some (updateCandle ((lookupC b acc).getD (newCandle b s.best_ask)) s.best_ask)
      else lookupC b acc := by
  induction acc with
  | nil =>
    by_cases h : bucketOf m s.timestamp = b
    · subst h
      simp [insertSnap, lookupC]
    · simp [insertSnap, lookupC, h]
  | cons kc rest ih =>
    obtain ⟨k, c⟩ := kc
    by_cases hk : k = bucketOf m s.timestamp
    · have hins : insertSnap m ((k, c) :: rest) s
          = (k, updateCandle c s.best_ask) :: rest := by rw [insertSnap, if_pos hk]
      by_cases hb : k = b
      · have hcond : bucketOf m s.timestamp = b := hk ▸ hb
        rw [hins]
        simp [lookupC, hb, hcond]
      · have hcond : ¬ (bucketOf m s.timestamp = b) := fun hh => hb (hk.trans hh)
        rw [hins]
        simp [lookupC, hb, hcond]
    · have hins : insertSnap m ((k, c) :: rest) s = (k, c) :: insertSnap m rest s := by
        rw [insertSnap, if_neg hk]
      by_cases hb2 : k = b
      · have hcond : ¬ (bucketOf m s.timestamp = b) := fun hh => hk (hb2.trans hh.symm)
        rw [hins]
        simp [lookupC, hb2, hcond]
      · rw [hins]
        simp [lookupC, hb2, ih]

theorem lookupC_foldl (m : ℤ) (snaps : List Snapshot) (acc : List (ℤ × Candle)) (b : ℤ) :
    lookupC b (snaps.foldl (insertSnap m) acc) =
      foldCandle b (lookupC b acc)
        ((snaps.filter fun s => bucketOf m s.timestamp = b).map Snapshot.best_ask) := by
  induction snaps generalizing acc with
  | nil => rfl
  | cons s rest ih =>
    rw [List.foldl_cons, ih, lookupC_insertSnap]
    by_cases h : bucketOf m s.timestamp = b
    · rw [if_pos h, List.filter_cons_of_pos (by simpa using h), List.map_cons]
      rfl
    · rw [if_neg h, List.filter_cons_of_neg (by simpa using h)]

theorem foldCandle_some (b : ℤ) (c : Candle) (asks : List ℚ) :
    foldCandle b (some c) asks = some
      { timestamp := c.timestamp
        open_ := c.open_
        high := asks.foldl max c.high
        low := asks.foldl min c.low
        close := asks.getLastD c.close
        volume := c.volume
        count := c.count + asks.length } := by
  induction asks generalizing c with
  | nil => simp [foldCandle]
  | cons a rest ih =>
    rw [show foldCandle b (some c) (a :: rest)
        = foldCandle b (some (updateCandle c a)) rest from rfl, ih]
    simp only [updateCandle, List.getLastD_cons, List.length_cons, List.foldl_cons,
      Option.some.injEq, Candle.mk.injEq, eq_self_iff_true, true_and, and_true]
    omega

theorem foldCandle_none_cons (b : ℤ) (a : ℚ) (rest : List ℚ) :
    foldCandle b none (a :: rest) = some
      { timestamp := b
        open_ := a
        high := rest.foldl max a
        low := rest.foldl min a
        close := rest.getLastD a
        volume := 0
        count := rest.length + 1 } := by
  rw [show foldCandle b none (a :: rest)
      = foldCandle b (some (updateCandle (newCandle b a) a)) rest from rfl,
    foldCandle_some]
  simp only [updateCandle, newCandle, max_self, min_self, Option.some.injEq,
    Candle.mk.injEq, eq_self_iff_true, true_and, and_true]
  omega

theorem keys_insertSnap_mem (m : ℤ) (acc : List (ℤ × Candle)) (s : Snapshot) (k : ℤ) :
    k ∈ (insertSnap m acc s).map Prod.fst ↔
      k ∈ acc.map Prod.fst ∨ k = bucketOf m s.timestamp := by
  induction acc with
  | nil => simp [insertSnap]
  | cons kc rest ih =>
    obtain ⟨k2, c⟩ := kc
    by_cases h : k2 = bucketOf m s.timestamp
    · rw [show insertSnap m ((k2, c) :: rest) s
          = (k2, updateCandle c s.best_ask) :: rest from by rw [insertSnap, if_pos h],
        List.map_cons, List.map_cons]
      simp only [List.mem_cons]
      constructor
      · rintro (hq | hq)
        · exact Or.inl (Or.inl hq)
        · exact Or.inl (Or.inr hq)
      · rintro ((hq | hq) | hq)
        · exact Or.inl hq
        · exact Or.inr hq
        · exact Or.inl (hq.trans h.symm)
    · rw [show insertSnap m ((k2, c) :: rest) s = (k2, c) :: insertSnap m rest s from by
          rw [insertSnap, if_neg h],
        List.map_cons, List.map_cons]
      simp only [List.mem_cons, ih]
      tauto

theorem keys_insertSnap_nodup (m : ℤ) (acc : List (ℤ × Candle)) (s : Snapshot)
    (h : (acc.map Prod.fst).Nodup) : ((insertSnap m acc s).map Prod.fst).Nodup := by
  induction acc with
  | nil => simp [insertSnap]
  | cons kc rest ih =>
    obtain ⟨k2, c⟩ := kc
    rw [List.map_cons, List.nodup_cons] at h
    by_cases hb : k2 = bucketOf m s.timestamp
    · rw [show insertSnap m ((k2, c) :: rest) s
          = (k2, updateCandle c s.best_ask) :: rest from by rw [insertSnap, if_pos hb],
        List.map_cons, List.nodup_cons]
      exact ⟨h.1, h.2⟩
    · rw [show insertSnap m ((k2, c) :: rest) s = (k2, c) :: insertSnap m rest s from by
        rw [insertSnap, if_neg hb], List.map_cons, List.nodup_cons]
      refine ⟨?_, ih h.2⟩
      rw [keys_insertSnap_mem]
      rintro (hm | hm)
      · exact h.1 hm
      · exact hb hm

theorem keys_buildCandles_nodup (m : ℤ) (snaps : List Snapshot) :
    ((buildCandles m snaps).map Prod.fst).Nodup := by
  have key : ∀ acc, (acc.map Prod.fst).Nodup →
      ((snaps.foldl (insertSnap m) acc).map Prod.fst).Nodup := by
    induction snaps with
    | nil => intro acc h; simpa using h
    | cons s rest ih => intro acc h; exact ih _ (keys_insertSnap_nodup m acc s h)
  exact key [] (by simp)

theorem entry_ts_insertSnap (m : ℤ) (acc : List (ℤ × Candle)) (s : Snapshot)
    (h : ∀ kc ∈ acc, (kc.2 : Candle).timestamp = kc.1) :
    ∀ kc ∈ insertSnap m acc s, (kc.2 : Candle).timestamp = kc.1 := by
  induction acc with
  | nil =>
    intro kc hkc
    simp only [insertSnap, List.mem_singleton] at hkc
    subst hkc
    rfl
  | cons kc2 rest ih =>
    obtain ⟨k2, c2⟩ := kc2
    have h2 := h ⟨k2, c2⟩ (List.mem_cons_self _ _)
    by_cases hb : k2 = bucketOf m s.timestamp
    · intro kc hkc
      rw [show insertSnap m ((k2, c2) :: rest) s
          = (k2, updateCandle c2 s.best_ask) :: rest from by rw [insertSnap, if_pos hb]] at hkc
      rcases List.mem_cons.1 hkc with rfl | hkc2
      · exact h2
      · exact h _ (List.mem_cons_of_mem _ hkc2)
    · intro kc hkc
      rw [show insertSnap m ((k2, c2) :: rest) s
          = (k2, c2) :: insertSnap m rest s from by rw [insertSnap, if_neg hb]] at hkc
      rcases List.mem_cons.1 hkc with rfl | hkc2
      · exact h2
      · exact ih (fun kc3 hk3 => h kc3 (List.mem_cons_of_mem _ hk3)) _ hkc2

theorem entry_ts_buildCandles (m : ℤ) (snaps : List Snapshot) :
    ∀ kc ∈ buildCandles m snaps, (kc.2 : Candle).timestamp = kc.1 := by
  have key : ∀ (sn : List Snapshot) (acc),
      (∀ kc ∈ acc, (kc.2 : Candle).timestamp = kc.1) →
      ∀ kc ∈ sn.foldl (insertSnap m) acc, (kc.2 : Candle).timestamp = kc.1 := by
    intro sn
    induction sn with
    | nil => intro acc h; simpa using h
    | cons s rest ih => intro acc h; exact ih _ (entry_ts_insertSnap m acc s h)
  exact key snaps [] (by simp)

theorem lookupC_of_mem (acc : List (ℤ × Candle)) (k : ℤ) (c : Candle)
    (hmem : (k, c) ∈ acc) (hn : (acc.map Prod.fst).Nodup) :
    lookupC k acc = some c := by
  induction acc with
  | nil => simp at hmem
  | cons kc rest ih =>
    obtain ⟨k2, c2⟩ := kc
    rw [List.map_cons, List.nodup_cons] at hn
    rcases List.mem_cons.1 hmem with heq | hmem2
    · cases heq
      simp [lookupC]
    · have hk : ¬ k2 = k := by
        intro h
        subst h
        exact hn.1 (by simpa using List.mem_map_of_mem Prod.fst hmem2)
      simp [lookupC, hk, ih hmem2 hn.2]

theorem foldl_max_mem (a : ℚ) (l : List ℚ) : l.foldl max a ∈ a :: l := by
  induction l generalizing a with
  | nil => simp
  | cons x xs ih =>
    rw [List.foldl_cons]
    rcases List.mem_cons.1 (ih (max a x)) with h | h
    · rw [List.mem_cons, List.mem_cons]
      rcases max_choice a x with hm | hm
      · exact Or.inl (h.trans hm)
      · exact Or.inr (Or.inl (h.trans hm))
    · exact List.mem_cons_of_mem _ (List.mem_cons_of_mem _ h)

theorem le_foldl_max (a : ℚ) (l : List ℚ) : ∀ x ∈ a :: l, x ≤ l.foldl max a := by
  induction l generalizing a with
  | nil =>
    intro x hx
    rw [List.mem_singleton] at hx
    subst hx
    exact le_refl _
  | cons y ys ih =>
    intro x hx
    rw [List.foldl_cons]
    rcases List.mem_cons.1 hx with rfl | hx2
    · exact le_trans (le_max_left x y) (ih (max x y) _ (List.mem_cons_self _ _))
    · rcases List.mem_cons.1 hx2 with rfl | hx3
      · exact le_trans (le_max_right a x) (ih (max a x) _ (List.mem_cons_self _ _))
      · exact ih (max a y) x (List.mem_cons_of_mem _ hx3)

theorem foldl_min_mem (a : ℚ) (l : List ℚ) : l.foldl min a ∈ a :: l := by
  induction l generalizing a with
  | nil => simp
  | cons x xs ih =>
    rw [List.foldl_cons]
    rcases List.mem_cons.1 (ih (min a x)) with h | h
    · rw [List.mem_cons, List.mem_cons]
      rcases min_choice a x with hm | hm
      · exact Or.inl (h.trans hm)
      · exact Or.inr (Or.inl (h.trans hm))
    · exact List.mem_cons_of_mem _ (List.mem_cons_of_mem _ h)

theorem foldl_min_le (a : ℚ) (l : List ℚ) : ∀ x ∈ a :: l, l.foldl min a ≤ x := by
  induction l generalizing a with
  | nil =>
    intro x hx
    rw [List.mem_singleton] at hx
    subst hx
    exact le_refl _
  | cons y ys ih =>
    intro x hx
    rw [List.foldl_cons]
    rcases List.mem_cons.1 hx with rfl | hx2
    · exact le_trans (ih (min x y) _ (List.mem_cons_self _ _)) (min_le_left x y)
    · rcases List.mem_cons.1 hx2 with rfl | hx3
      · exact le_trans (ih (min a x) _ (List.mem_cons_self _ _)) (min_le_right a x)
      · exact ih (min a y) x (List.mem_cons_of_mem _ hx3)

theorem getLastD_map {α β : Type} (f : α → β) (l : List α) (d : α) :
    (l.map f).getLastD (f d) = f (l.getLastD d) := by
  induction l generalizing d with
  | nil => rfl
  | cons x xs ih => rw [List.map_cons, List.getLastD_cons, List.getLastD_cons, ih]

theorem bucketCandles_char (snaps : List Snapshot) (tf : ℤ) (c : Candle)
    (hc : c ∈ bucketCandles snaps tf) :
    ∃ s0 sl,
      ((snaps.filter fun s => bucketOf (tf * 60 * 1000) s.timestamp = c.timestamp).head?
        = some s0) ∧
      ((snaps.filter fun s => bucketOf (tf * 60 * 1000) s.timestamp = c.timestamp).getLast?
        = some sl) ∧
      c.open_ = s0.best_ask ∧ c.close = sl.best_ask ∧
      (c.high ∈ (snaps.filter fun s =>
          bucketOf (tf * 60 * 1000) s.timestamp = c.timestamp).map Snapshot.best_ask ∧
        ∀ x ∈ (snaps.filter fun s =>
          bucketOf (tf * 60 * 1000) s.timestamp = c.timestamp).map Snapshot.best_ask,
          x ≤ c.high) ∧
      (c.low ∈ (snaps.filter fun s =>
          bucketOf (tf * 60 * 1000) s.timestamp = c.timestamp).map Snapshot.best_ask ∧
        ∀ x ∈ (snaps.filter fun s =>
          bucketOf (tf * 60 * 1000) s.timestamp = c.timestamp).map Snapshot.best_ask,
          c.low ≤ x) ∧
      c.count = ((snaps.filter fun s =>
        bucketOf (tf * 60 * 1000) s.timestamp = c.timestamp)).length := by
  by_cases he : snaps.isEmpty
  · rw [show bucketCandles snaps tf = [] from by simp [bucketCandles, he]] at hc
    simp at hc
  · rw [show bucketCandles snaps tf
        = List.insertionSort candleLe
            ((buildCandles (tf * 60 * 1000) snaps).map Prod.snd) from by
      simp [bucketCandles, he]] at hc
    rw [List.mem_insertionSort] at hc
    obtain ⟨kc, hmem, hsnd⟩ := List.mem_map.1 hc
    obtain ⟨k, c2⟩ := kc
    cases hsnd
    have hts : c2.timestamp = k := entry_ts_buildCandles _ _ _ hmem
    have hlk : lookupC k (buildCandles (tf * 60 * 1000) snaps) = some c2 :=
      lookupC_of_mem _ _ _ hmem (keys_buildCandles_nodup _ _)
    rw [show buildCandles (tf * 60 * 1000) snaps
        = snaps.foldl (insertSnap (tf * 60 * 1000)) [] from rfl,
      lookupC_foldl] at hlk
    rw [← hts] at hlk
    cases hF : snaps.filter fun s =>
        bucketOf (tf * 60 * 1000) s.timestamp = c2.timestamp with
    | nil =>
      rw [hF] at hlk
      simp [foldCandle, lookupC] at hlk
    | cons s0 grest =>
      rw [hF, List.map_cons] at hlk
      rw [show lookupC c2.timestamp ([] : List (ℤ × Candle)) = none from rfl,
        foldCandle_none_cons] at hlk
      have hce := Option.some.inj hlk
      refine ⟨s0, grest.getLastD s0, rfl, getLast?_cons_getLastD s0 grest, ?_, ?_, ?_, ?_, ?_⟩
      · rw [← hce]
      · rw [← hce]
        show (grest.map Snapshot.best_ask).getLastD s0.best_ask
          = (grest.getLastD s0).best_ask
        exact getLastD_map Snapshot.best_ask grest s0
      · constructor
        · rw [← hce]
          show (grest.map Snapshot.best_ask).foldl max s0.best_ask
            ∈ (s0 :: grest).map Snapshot.best_ask
          rw [List.map_cons]
          exact foldl_max_mem _ _
        · intro x hx
          rw [← hce]
          show x ≤ (grest.map Snapshot.best_ask).foldl max s0.best_ask
          rw [List.map_cons] at hx
          exact le_foldl_max _ _ x hx
      · constructor
        · rw [← hce]
          show (grest.map Snapshot.best_ask).foldl min s0.best_ask
            ∈ (s0 :: grest).map Snapshot.best_ask
          rw [List.map_cons]
          exact foldl_min_mem _ _
        · intro x hx
          rw [← hce]
          show (grest.map Snapshot.best_ask).foldl min s0.best_ask ≤ x
          rw [List.map_cons] at hx
          exact foldl_min_le _ _ x hx
      · rw [← hce]
        show ((grest.map Snapshot.best_ask).length : ℤ) + 1 = ((s0 :: grest).length : ℤ)
        rw [List.length_map, List.length_cons]
        omega

theorem bucketCandles_sorted (snaps : List Snapshot) (tf : ℤ) :
    List.Pairwise (fun a b : Candle => a.timestamp < b.timestamp)
      (bucketCandles snaps tf) := by
  by_cases he : snaps.isEmpty
  · rw [show bucketCandles snaps tf = [] from by simp [bucketCandles, he]]
    exact List.Pairwise.nil
  · rw [show bucketCandles snaps tf
        = List.insertionSort candleLe
            ((buildCandles (tf * 60 * 1000) snaps).map Prod.snd) from by
      simp [bucketCandles, he]]
    have hs : List.Pairwise candleLe
        (List.insertionSort candleLe ((buildCandles (tf * 60 * 1000) snaps).map Prod.snd)) :=
      List.sorted_insertionSort candleLe _
    have hmapeq : ((buildCandles (tf * 60 * 1000) snaps).map Prod.snd).map Candle.timestamp
        = (buildCandles (tf * 60 * 1000) snaps).map Prod.fst := by
      rw [List.map_map]
      exact List.map_congr_left fun kc hkc => entry_ts_buildCandles _ _ kc hkc
    have hn : (((buildCandles (tf * 60 * 1000) snaps).map Prod.snd).map
        Candle.timestamp).Nodup := by
      rw [hmapeq]
      exact keys_buildCandles_nodup _ _
    have hn2 : ((List.insertionSort candleLe
        ((buildCandles (tf * 60 * 1000) snaps).map Prod.snd)).map Candle.timestamp).Nodup :=
      ((List.perm_insertionSort candleLe _).map Candle.timestamp).nodup_iff.2 hn
    have hp : List.Pairwise (fun a b : Candle => a.timestamp ≠ b.timestamp)
        (List.insertionSort candleLe ((buildCandles (tf * 60 * 1000) snaps).map Prod.snd)) := by
      rw [List.Nodup, List.pairwise_map] at hn2
      exact hn2
    exact (hs.and hp).imp fun h => lt_of_le_of_ne h.1 h.2

theorem candles_example (t0 : ℤ) (hdvd : (3600000 : ℤ) ∣ t0) :
    calculate_candles (exampleRows t0) "X" 60 (some t0) (some (t0 + 7200000)) =
      [⟨t0, 10, 12, 10, 12, 0, 2⟩, ⟨t0 + 3600000, 11, 11, 11, 11, 0, 1⟩] := by
  obtain ⟨q, rfl⟩ := hdvd
  have hb1 : bucketOf 3600000 (3600000 * q + 100) = 3600000 * q := by
    simp only [bucketOf]
    rw [Int.fdiv_eq_ediv _ (by norm_num)]
    omega
  have hb2 : bucketOf 3600000 (3600000 * q + 3500000) = 3600000 * q := by
    simp only [bucketOf]
    rw [Int.fdiv_eq_ediv _ (by norm_num)]
    omega
  have hb3 : bucketOf 3600000 (3600000 * q + 3700000) = 3600000 * q + 3600000 := by
    simp only [bucketOf]
    rw [Int.fdiv_eq_ediv _ (by norm_num)]
    omega
  have hfil : (exampleRows (3600000 * q)).filter
      (rowMatches "X" none (some (3600000 * q)) (some (3600000 * q + 7200000)))
      = exampleRows (3600000 * q) := by
    rw [List.filter_eq_self]
    intro s hs
    simp only [exampleRows, List.mem_cons, List.not_mem_nil, or_false] at hs
    rcases hs with rfl | rfl | rfl <;> simp [rowMatches]
  have hsor : List.Pairwise snapLe (exampleRows (3600000 * q)) := by
    simp [exampleRows, snapLe, List.pairwise_cons]
  have hq1 : get_snapshots (exampleRows (3600000 * q)) "X" none (some (3600000 * q))
      (some (3600000 * q + 7200000)) none = exampleRows (3600000 * q) := by
    rw [show get_snapshots (exampleRows (3600000 * q)) "X" none (some (3600000 * q))
        (some (3600000 * q + 7200000)) none
        = List.insertionSort snapLe ((exampleRows (3600000 * q)).filter
            (rowMatches "X" none (some (3600000 * q)) (some (3600000 * q + 7200000))))
      from rfl, hfil]
    exact List.Sorted.insertionSort_eq hsor
  have hmax : max (10 : ℚ) 12 = 12 := by norm_num
  have hmin : min (10 : ℚ) 12 = 10 := by norm_num
  have hne : ¬ (3600000 * q = 3600000 * q + 3600000) := by omega
  have hbuild : buildCandles 3600000 (exampleRows (3600000 * q)) =
      [(3600000 * q, ⟨3600000 * q, 10, 12, 10, 12, 0, 2⟩),
       (3600000 * q + 3600000, ⟨3600000 * q + 3600000, 11, 11, 11, 11, 0, 1⟩)] := by
    simp only [buildCandles, exampleRows, List.foldl_cons, List.foldl_nil]
    rw [show insertSnap 3600000 []
          ⟨"X", "BTC", 3600000 * q + 100, 10, none, none, none⟩
        = [(3600000 * q, ⟨3600000 * q, 10, 10, 10, 10, 0, 1⟩)] from by
      simp [insertSnap, updateCandle, newCandle, hb1]]
    rw [show insertSnap 3600000
          [(3600000 * q, (⟨3600000 * q, 10, 10, 10, 10, 0, 1⟩ : Candle))]
          ⟨"X", "BTC", 3600000 * q + 3500000, 12, none, none, none⟩
        = [(3600000 * q, ⟨3600000 * q, 10, 12, 10, 12, 0, 2⟩)] from by
      simp [insertSnap, updateCandle, hb2, hmax, hmin]]
    rw [show insertSnap 3600000
          [(3600000 * q, (⟨3600000 * q, 10, 12, 10, 12, 0, 2⟩ : Candle))]
          ⟨"X", "BTC", 3600000 * q + 3700000, 11, none, none, none⟩
        = [(3600000 * q, ⟨3600000 * q, 10, 12, 10, 12, 0, 2⟩),
           (3600000 * q + 3600000, ⟨3600000 * q + 3600000, 11, 11, 11, 11, 0, 1⟩)] from by
      simp [insertSnap, updateCandle, newCandle, hb3, hne]]
  have hbc : bucketCandles (exampleRows (3600000 * q)) 60 =
      [⟨3600000 * q, 10, 12, 10, 12, 0, 2⟩,
       ⟨3600000 * q + 3600000, 11, 11, 11, 11, 0, 1⟩] := by
    rw [show bucketCandles (exampleRows (3600000 * q)) 60
        = List.insertionSort candleLe
            ((buildCandles ((60 : ℤ) * 60 * 1000) (exampleRows (3600000 * q))).map Prod.snd)
      from by simp [bucketCandles, exampleRows]]
    rw [show ((60 : ℤ) * 60 * 1000) = 3600000 from by norm_num, hbuild]
    rw [show ([(3600000 * q, (⟨3600000 * q, 10, 12, 10, 12, 0, 2⟩ : Candle)),
        (3600000 * q + 3600000, ⟨3600000 * q + 3600000, 11, 11, 11, 11, 0, 1⟩)].map Prod.snd)
        = [(⟨3600000 * q, 10, 12, 10, 12, 0, 2⟩ : Candle),
           ⟨3600000 * q + 3600000, 11, 11, 11, 11, 0, 1⟩] from rfl]
    refine List.Sorted.insertionSort_eq ?_
    refine List.Pairwise.cons ?_ (List.Pairwise.cons ?_ List.Pairwise.nil)
    · intro c hc
      rw [List.mem_singleton] at hc
      subst hc
      show (3600000 * q : ℤ) ≤ 3600000 * q + 3600000
      omega
    · intro c hc
      simp at hc
  rw [show calculate_candles (exampleRows (3600000 * q)) "X" 60 (some (3600000 * q))
      (some (3600000 * q + 7200000))
      = bucketCandles (get_snapshots (exampleRows (3600000 * q)) "X" none
          (some (3600000 * q)) (some (3600000 * q + 7200000)) none) 60 from rfl,
    hq1, hbc]

/-- C6 counterexample: at t0 = 0 the snapshot at t0+3500000 falls in the
FIRST 60-minute bucket (3500000 < 3600000), so the claimed candle values
(open 10, high 10, low 10, close 10) and (open 12, high 12, low 11, close 11)
do not match what the code computes. -/
theorem candles_claimed_example_false :
    ((calculate_candles (exampleRows 0) "X" 60 (some 0) (some 7200000)).map
        fun c => (c.open_, c.high, c.low, c.close)) ≠
      [(10, 10, 10, 10), (12, 12, 11, 11)] := by decide

/-- C6 (with the example corrected): candles bucket each selected snapshot by
floor(timestamp / bucketWidthMillis) * bucketWidthMillis; within a bucket,
open and close are the ask of the first and last snapshot in ascending
timestamp order, high and low the maximum and minimum ask; the result is
strictly ascending by bucket start; an empty selection yields an empty list;
and the example snapshots at t0+100, t0+3500000, t0+3700000 with asks
10, 12, 11 yield the candles (10,12,10,12) at t0 and (11,11,11,11) at
t0+3600000. -/
theorem calculate_candles_spec (rows : List Snapshot) (coin : String)
    (tf : ℤ) (st en : Option ℤ) :
    (get_snapshots rows coin none st en none = [] →
        calculate_candles rows coin tf st en = []) ∧
    List.Pairwise (fun a b : Candle => a.timestamp < b.timestamp)
      (calculate_candles rows coin tf st en) ∧
    (∀ c ∈ calculate_candles rows coin tf st en,
      ∃ s0 sl,
        (((get_snapshots rows coin none st en none).filter fun s =>
            s.timestamp.fdiv (tf * 60 * 1000) * (tf * 60 * 1000) = c.timestamp).head?
          = some s0) ∧
        (((get_snapshots rows coin none st en none).filter fun s =>
            s.timestamp.fdiv (tf * 60 * 1000) * (tf * 60 * 1000) = c.timestamp).getLast?
          = some sl) ∧
        c.open_ = s0.best_ask ∧ c.close = sl.best_ask ∧
        (c.high ∈ ((get_snapshots rows coin none st en none).filter fun s =>
            s.timestamp.fdiv (tf * 60 * 1000) * (tf * 60 * 1000)
              = c.timestamp).map Snapshot.best_ask ∧
          ∀ x ∈ ((get_snapshots rows coin none st en none).filter fun s =>
            s.timestamp.fdiv (tf * 60 * 1000) * (tf * 60 * 1000)
              = c.timestamp).map Snapshot.best_ask, x ≤ c.high) ∧
        (c.low ∈ ((get_snapshots rows coin none st en none).filter fun s =>
            s.timestamp.fdiv (tf * 60 * 1000) * (tf * 60 * 1000)
              = c.timestamp).map Snapshot.best_ask ∧
          ∀ x ∈ ((get_snapshots rows coin none st en none).filter fun s =>
            s.timestamp.fdiv (tf * 60 * 1000) * (tf * 60 * 1000)
              = c.timestamp).map Snapshot.best_ask, c.low ≤ x) ∧
        c.count = (((get_snapshots rows coin none st en none).filter fun s =>
            s.timestamp.fdiv (tf * 60 * 1000) * (tf * 60 * 1000)
              = c.timestamp)).length) ∧
    (∀ t0 : ℤ, (3600000 : ℤ) ∣ t0 →
        calculate_candles (exampleRows t0) "X" 60 (some t0) (some (t0 + 7200000)) =
          [⟨t0, 10, 12, 10, 12, 0, 2⟩, ⟨t0 + 3600000, 11, 11, 11, 11, 0, 1⟩]) := by
  refine ⟨?_, ?_, ?_, ?_⟩
  · intro h
    show bucketCandles (get_snapshots rows coin none st en none) tf = []
    rw [h]
    rfl
  · exact bucketCandles_sorted (get_snapshots rows coin none st en none) tf
  · intro c hc
    exact bucketCandles_char (get_snapshots rows coin none st en none) tf c hc
  · exact candles_example

/-- Witness for C6 at t0 = 0. -/
theorem calculate_candles_spec_witness :
    calculate_candles (exampleRows 0) "X" 60 (some 0) (some (0 + 7200000)) =
      [⟨0, 10, 12, 10, 12, 0, 2⟩, ⟨0 + 3600000, 11, 11, 11, 11, 0, 1⟩] :=
  (calculate_candles_spec [] "X" 60 none none).2.2.2 0 ⟨0, by ring⟩

end NBBO
